import Mathlib

/-!
Shallow embedding of the activity-timeline event engine of the repository:
the event classifier (`onUpdateEvent`), the timeline aggregator and its
grouped view (`groupedEvents`, `toggleSection`, expand defaults), the
archival snapshot manager (the finalize effect in `App`), the submit
handler (`handleSubmit`), and the mind-map fetch continuation
(`MindMapModal`).  JavaScript objects used as string-keyed records are
modelled as association lists with spread-update semantics (an existing
key is overwritten in place, a new key is appended); JavaScript truthiness
of strings is the non-empty test, of `undefined` the value `false`.
-/

namespace Spec2Proof

/-- JSON-like payload values carried in the `data` field of events and in
network bodies. -/
inductive JsonVal where
  | null
  | bool (b : Bool)
  | num (n : Int)
  | str (s : String)
  | arr (xs : List JsonVal)
  | obj (fields : List (String × JsonVal))
  deriving Repr, BEq

/-- The `ProcessedEvent` interface of `ActivityTimeline.tsx`. -/
structure ProcessedEvent where
  title : String
  data : JsonVal
  sectionType : String
  isSources : Bool
  deriving Repr, BEq

/-- A node payload `{ type, data }` as consumed by `onUpdateEvent`;
`type = none` models an absent (`undefined`) field. -/
structure NodePayload where
  type : Option String
  data : JsonVal
  deriving Repr

/-- A stream tick: an ordered mapping from node name to payload. -/
abbrev Tick := List (String × NodePayload)

/-- `nodeName.replace(/_/g, ' ')` followed by capitalizing the first
character, as computed for the default title in `onUpdateEvent`. -/
def humanize (s : String) : String :=
  let t := s.replace "_" " "
  match t.data with
  | [] => ""
  | c :: cs => String.mk (c.toUpper :: cs)

/-- JavaScript truthiness of the `type` field: present and non-empty. -/
def hasTruthyType (p : NodePayload) : Bool :=
  match p.type with
  | none => false
  | some t => t ≠ ""

/-- The body of the `for (const nodeName in event)` loop of
`onUpdateEvent`: the classified entry produced for one node payload, or
`none` when the payload fails the `nodeEvent.type` truthiness guard. -/
def classifyNode (nodeName : String) (p : NodePayload) : Option ProcessedEvent :=
  match p.type with
  | none => none
  | some t =>
    if t = "" then none
    else
      let title0 := humanize nodeName
      if nodeName = "generate_query" then
        some ⟨"Generating Search Queries", p.data, "Querying", false⟩
      else if nodeName = "web_research" then
        if t = "status" then some ⟨"Web Research Status", p.data, "Searching", false⟩
        else if t = "sources" then some ⟨"Found Sources", p.data, "Searching", true⟩
        else some ⟨title0, p.data, "Searching", false⟩
      else if nodeName = "reflection" then
        if t = "status" then some ⟨"Reflection Status", p.data, "Planning", false⟩
        else if t = "plan" then some ⟨"Reflection Plan", p.data, "Planning", false⟩
        else some ⟨title0, p.data, "Planning", false⟩
      else if nodeName = "code_execution" then
        if t = "status" then some ⟨"Code Execution Status", p.data, "Coding", false⟩
        else if t = "output" then some ⟨"Code Execution Output", p.data, "Coding", false⟩
        else some ⟨title0, p.data, "Coding", false⟩
      else if nodeName = "finalize_answer" then
        some ⟨"Finalizing Answer", p.data, "Finalizing", false⟩
      else
        some ⟨title0, p.data, "General", false⟩

/-- Whether processing this node sets `hasFinalizeEventOccurredRef`:
the assignment sits inside the `finalize_answer` branch of the guarded
loop body. -/
def raisesFinalize (nodeName : String) (p : NodePayload) : Bool :=
  hasTruthyType p && nodeName == "finalize_answer"

/-- The whole classification loop of `onUpdateEvent`: fold over the
tick accumulating `newProcessedEvents` in node-enumeration order. -/
def classifyTick (tick : Tick) : List ProcessedEvent :=
  tick.foldl
    (fun acc np =>
      match classifyNode np.1 np.2 with
      | some e => acc ++ [e]
      | none => acc)
    []

/-- Whether some node of the tick raises the run-completion signal. -/
def tickRaisesFinalize (tick : Tick) : Bool :=
  tick.any fun np => raisesFinalize np.1 np.2

/-! ### JavaScript string-keyed records as association lists -/

/-- Property read `m[k]`: first binding of `k`, `none` for `undefined`. -/
def lookupKey (m : List (String × α)) (k : String) : Option α :=
  (m.find? fun p => p.1 == k).map Prod.snd

/-- Spread update `{...m, [k]: v}`: an existing key keeps its position and
gets the new value, a fresh key is appended at the end. -/
def setKey (m : List (String × α)) (k : String) (v : α) : List (String × α) :=
  if m.any (fun p => p.1 == k) then
    m.map fun p => if p.1 == k then (p.1, v) else p
  else m ++ [(k, v)]

/-- JavaScript truthiness of a possibly-`undefined` boolean property. -/
def jsBool (o : Option Bool) : Bool :=
  match o with
  | none => false
  | some b => b

/-! ### Timeline aggregator (`ActivityTimeline.tsx`) -/

abbrev GroupedMap := List (String × List ProcessedEvent)

/-- One step of the `reduce` in `groupedEvents`: create the key's bucket
if missing, then push the event onto it. -/
def addEvent (acc : GroupedMap) (e : ProcessedEvent) : GroupedMap :=
  if acc.any (fun p => p.1 == e.sectionType) then
    acc.map fun p => if p.1 == e.sectionType then (p.1, p.2 ++ [e]) else p
  else acc ++ [(e.sectionType, [e])]

/-- The `groupedEvents` memo: `processedEvents.reduce(..., {})`. -/
def groupedEvents (processedEvents : List ProcessedEvent) : GroupedMap :=
  processedEvents.foldl addEvent []

/-- The bucket displayed for a category: `grouped[k]`, with a missing key
reading as the empty list. -/
def groupOf (g : GroupedMap) (k : String) : List ProcessedEvent :=
  match lookupKey g k with
  | some v => v
  | none => []

/-- Expand/collapse flags `expandedSections`. -/
abbrev ExpandMap := List (String × Bool)

/-- `toggleSection`: `{...prev, [sectionType]: !prev[sectionType]}` where
`!undefined` is `true`. -/
def toggleSection (prev : ExpandMap) (sectionType : String) : ExpandMap :=
  setKey prev sectionType (!(jsBool (lookupKey prev sectionType)))

/-- The expanded/collapsed state the renderer acts on:
`expandedSections[sectionType]` under truthiness. -/
def effectiveExpand (e : ExpandMap) (k : String) : Bool :=
  jsBool (lookupKey e k)

/-- The default-expand effect: for every key of `groupedEvents` whose
entry in the rendered `expandedSections` snapshot is `undefined`, run
`setExpandedSections(prev => ({...prev, [k]: true}))`; the functional
updates chain while each membership check reads the snapshot `e`. -/
def ensureDefaults (e : ExpandMap) (ks : List String) : ExpandMap :=
  ks.foldl
    (fun acc k => if (lookupKey e k).isNone then setKey acc k true else acc)
    e

/-! ### App state and archival snapshot manager (`App`) -/

/-- A chat message as read by the archival effect: only `type` (role) and
`id` matter; `id = none` models an absent identifier. -/
structure Msg where
  type : String
  id : Option String
  content : String
  deriving Repr

/-- The state owned by `App` that the engine mutates. -/
structure AppState where
  processedEventsTimeline : List ProcessedEvent
  historicalActivities : List (String × List ProcessedEvent)
  hasFinalizeEventOccurred : Bool
  deriving Repr

/-- `onUpdateEvent` as a state transition: classify the tick, latch the
finalize flag inside the loop, and append the new entries only when the
batch is non-empty. -/
def onUpdateEvent (s : AppState) (tick : Tick) : AppState :=
  let newProcessedEvents := classifyTick tick
  { s with
    hasFinalizeEventOccurred :=
      s.hasFinalizeEventOccurred || tickRaisesFinalize tick
    processedEventsTimeline :=
      if newProcessedEvents.length > 0 then
        s.processedEventsTimeline ++ newProcessedEvents
      else s.processedEventsTimeline }

/-- The guard `lastMessage && lastMessage.type === "ai" && lastMessage.id`
on the tail of the message list (`id` truthy means present, non-empty). -/
def lastIsAiWithId (messages : List Msg) : Option String :=
  match messages.getLast? with
  | none => none
  | some lm =>
    if lm.type = "ai" then
      match lm.id with
      | some i => if i = "" then none else some i
      | none => none
    else none

/-- The archival `useEffect` of `App`: when the finalize flag is latched,
the run is no longer loading and the message list is non-empty, archive a
copy of the live timeline under the tail message's id if that message is
an assistant message with a truthy id, and in every such case clear the
flag (the clear sits inside the outer `if` but outside the inner one). -/
def archiveEffect (s : AppState) (messages : List Msg) (isLoading : Bool) :
    AppState :=
  if s.hasFinalizeEventOccurred && !isLoading && messages.length > 0 then
    let s1 :=
      match lastIsAiWithId messages with
      | some i =>
        { s with historicalActivities :=
            setKey s.historicalActivities i s.processedEventsTimeline }
      | none => s
    { s1 with hasFinalizeEventOccurred := false }
  else s

/-- JavaScript `String.prototype.trim`: strip leading and trailing
whitespace (modelled over the character list so that it evaluates). -/
def jsTrim (s : String) : String :=
  String.mk
    (((s.data.dropWhile Char.isWhitespace).reverse.dropWhile
        Char.isWhitespace).reverse)

/-- `handleSubmit`: a blank (trim-empty) input returns immediately;
otherwise the live timeline is cleared and the finalize flag reset before
the run request is dispatched.  The returned flag records whether
`thread.submit` was reached. -/
def handleSubmit (s : AppState) (submittedInputValue effort model : String) :
    AppState × Bool :=
  if jsTrim submittedInputValue = "" then (s, false)
  else
    ({ s with
        processedEventsTimeline := []
        hasFinalizeEventOccurred := false },
      true)

/-- External events that mutate the engine after an archive is written:
stream ticks and new submissions. -/
inductive EngineOp where
  | tick (t : Tick)
  | submit (text effort model : String)

/-- Apply one external event to the app state. -/
def applyOp (s : AppState) (op : EngineOp) : AppState :=
  match op with
  | .tick t => onUpdateEvent s t
  | .submit text effort model => (handleSubmit s text effort model).1

/-- Apply a sequence of external events in order. -/
def applyOps (s : AppState) (ops : List EngineOp) : AppState :=
  ops.foldl applyOp s

/-! ### Section renderer (payload display policy) -/

/-- JavaScript truthiness of a JSON value. -/
def jsTruthy : JsonVal → Bool
  | .null => false
  | .bool b => b
  | .num n => n != 0
  | .str s => s != ""
  | .arr _ => true
  | .obj _ => true

mutual

/-- String interpolation of a JSON value into rendered text.  The array
and object cases never arise in the verified claims; they are fixed
deterministically. -/
def jsToString : JsonVal → String
  | .null => "null"
  | .bool true => "true"
  | .bool false => "false"
  | .num n => toString n
  | .str s => s
  | .arr xs => jsToStringList xs
  | .obj _ => "[object Object]"

/-- Concatenated interpolation of a list of JSON values. -/
def jsToStringList : List JsonVal → String
  | [] => ""
  | x :: xs => jsToString x ++ jsToStringList xs

end

/-- Property access `v.k` on a JSON value: `undefined` off objects. -/
def jsField (v : JsonVal) (k : String) : Option JsonVal :=
  match v with
  | .obj fields => lookupKey fields k
  | _ => none

/-- `Array.isArray`. -/
def isJsArr : JsonVal → Bool
  | .arr _ => true
  | _ => false

/-- The elements of a JSON array. -/
def jsElems : JsonVal → List JsonVal
  | .arr xs => xs
  | _ => []

/-- `typeof v.k === "string"`. -/
def isStringField (v : JsonVal) (k : String) : Bool :=
  match jsField v k with
  | some (.str _) => true
  | _ => false

/-- One visible piece the renderer emits for an entry's payload. -/
inductive RenderPiece where
  | link (href label : String)
  | text (s : String)
  | stdoutBlock (s : String)
  | stderrBlock (s : String)
  | errorBlock (s : String)
  | dump (v : JsonVal)
  deriving Repr, BEq

/-- One element of the sources branch: `source.url && <a ...>` with label
`source.title || source.url`; a falsy `url` renders nothing. -/
def renderSource (v : JsonVal) : Option RenderPiece :=
  match jsField v "url" with
  | some u =>
    if jsTruthy u then
      let label :=
        match jsField v "title" with
        | some t => if jsTruthy t then jsToString t else jsToString u
        | none => jsToString u
      some (.link (jsToString u) label)
    else none
  | none => none

/-- `data.f && <pre>LABEL: {data.f}</pre>`: a block for a truthy field. -/
def blockIfTruthy (mk : String → RenderPiece) (f : Option JsonVal) :
    List RenderPiece :=
  match f with
  | some v => if jsTruthy v then [mk (jsToString v)] else []
  | none => []

/-- The payload-rendering ternary chain of `ActivityTimeline.tsx`:
sources branch, then string branch, then process-output branch (guarded
by `event.data` truthy and one of `stdout`/`stderr`/`error` being a
string), then the `JSON.stringify` fallback. -/
def renderData (e : ProcessedEvent) : List RenderPiece :=
  if e.isSources && isJsArr e.data then
    (jsElems e.data).filterMap renderSource
  else
    match e.data with
    | .str s => [.text s]
    | d =>
      if jsTruthy d &&
          (isStringField d "stdout" || isStringField d "stderr"
            || isStringField d "error") then
        blockIfTruthy .stdoutBlock (jsField d "stdout")
          ++ blockIfTruthy .stderrBlock (jsField d "stderr")
          ++ blockIfTruthy .errorBlock (jsField d "error")
      else
        [.dump d]

/-! ### Mind-map fetch (`MindMapModal.tsx`) -/

/-- A settled HTTP response: status, raw body text, and the result of
parsing that text as JSON (`none` when the body is not valid JSON). -/
structure FetchResponse where
  status : Nat
  bodyText : String
  bodyJson : Option JsonVal

/-- The modal's three pieces of state. -/
structure MindMapState where
  isLoading : Bool
  error : Option String
  rawMermaid : String
  deriving Repr

/-- The message a rejected `res.json()` carries when a 2xx body is not
valid JSON; produced by the host runtime, not by repository code. -/
def jsonSyntaxErrorMessage : String := "Unexpected token in JSON"

/-- The `then`/`catch`/`finally` chain of the mind-map fetch, as the
state it leaves once the response has settled: non-2xx throws
`Server error (status N): detail-or-text`; a 2xx body without a truthy
`mermaid_string` throws the fixed message; a truthy `mermaid_string` is
stored; `finally` always clears the loading flag. -/
def resolveFetch (res : FetchResponse) : MindMapState :=
  if 200 ≤ res.status ∧ res.status ≤ 299 then
    match res.bodyJson with
    | none =>
      { isLoading := false, error := some jsonSyntaxErrorMessage
        rawMermaid := "" }
    | some data =>
      match jsField data "mermaid_string" with
      | some v =>
        if jsTruthy v then
          { isLoading := false, error := none, rawMermaid := jsToString v }
        else
          { isLoading := false
            error := some "Received no mermaid_string or empty data in response."
            rawMermaid := "" }
      | none =>
        { isLoading := false
          error := some "Received no mermaid_string or empty data in response."
          rawMermaid := "" }
  else
    let detail :=
      match res.bodyJson with
      | some j =>
        match jsField j "detail" with
        | some d => if jsTruthy d then jsToString d else res.bodyText
        | none => res.bodyText
      | none => res.bodyText
    { isLoading := false
      error := some
        ("Server error (status " ++ toString res.status ++ "): " ++ detail)
      rawMermaid := "" }

/-- The whole client: the engine's state plus the modal's state.  The
fetch continuations call only the modal's own state setters. -/
structure ClientState where
  app : AppState
  modal : MindMapState

/-- Settling the mind-map fetch on the whole client state. -/
def resolveFetchClient (s : ClientState) (res : FetchResponse) : ClientState :=
  { s with modal := resolveFetch res }

/-! ### Lemmas about record reads and spread updates -/

theorem lookupKey_cons (a : String) (b : α) (m : List (String × α))
    (k : String) :
    lookupKey ((a, b) :: m) k = if a = k then some b else lookupKey m k := by
  by_cases h : a = k
  · simp [lookupKey, List.find?_cons, h]
  · simp [lookupKey, List.find?_cons, h]

theorem lookupKey_map_setfun (m : List (String × α)) (k : String) (g : α → α) :
    lookupKey (m.map fun p => if p.1 == k then (p.1, g p.2) else p) k
      = (lookupKey m k).map g := by
  induction m with
  | nil => rfl
  | cons p rest ih =>
    obtain ⟨a, b⟩ := p
    by_cases hak : a = k
    · subst hak
      simp_all [lookupKey_cons]
    · simp_all [lookupKey_cons, hak]

theorem lookupKey_map_setfun_ne (m : List (String × α)) (k k2 : String)
    (g : α → α) (h : k ≠ k2) :
    lookupKey (m.map fun p => if p.1 == k then (p.1, g p.2) else p) k2
      = lookupKey m k2 := by
  induction m with
  | nil => rfl
  | cons p rest ih =>
    obtain ⟨a, b⟩ := p
    by_cases hak : a = k
    · subst hak
      simp_all [lookupKey_cons, h]
    · simp_all [lookupKey_cons, hak]

theorem lookupKey_append_single_self (m : List (String × α)) (k : String)
    (v : α) (h : m.any (fun p => p.1 == k) = false) :
    lookupKey (m ++ [(k, v)]) k = some v := by
  induction m with
  | nil => simp [lookupKey_cons]
  | cons p rest ih =>
    obtain ⟨a, b⟩ := p
    simp_all [lookupKey_cons, List.any_cons]
    exact ih h.2

theorem lookupKey_append_single_ne (m : List (String × α)) (k k2 : String)
    (v : α) (h : k ≠ k2) :
    lookupKey (m ++ [(k, v)]) k2 = lookupKey m k2 := by
  induction m with
  | nil => simp [lookupKey_cons, h]
  | cons p rest ih =>
    obtain ⟨a, b⟩ := p
    by_cases hak : a = k2
    · simp_all [lookupKey_cons]
    · simp_all [lookupKey_cons, hak]

theorem lookupKey_eq_none_of_any_false (m : List (String × α)) (k : String)
    (h : m.any (fun p => p.1 == k) = false) :
    lookupKey m k = none := by
  induction m with
  | nil => rfl
  | cons p rest ih =>
    obtain ⟨a, b⟩ := p
    simp_all [lookupKey_cons, List.any_cons]
    exact ih h.2

theorem lookupKey_isSome_of_any_true (m : List (String × α)) (k : String)
    (h : m.any (fun p => p.1 == k) = true) :
    (lookupKey m k).isSome = true := by
  induction m with
  | nil => simp at h
  | cons p rest ih =>
    obtain ⟨a, b⟩ := p
    by_cases hak : a = k
    · simp [lookupKey_cons, hak]
    · simp_all [lookupKey_cons, hak, List.any_cons]
      obtain ⟨x, hx⟩ := h
      exact ih x hx

theorem lookupKey_setKey_self (m : List (String × α)) (k : String) (v : α) :
    lookupKey (setKey m k v) k = some v := by
  unfold setKey
  split
  case isTrue h =>
    have h1 := lookupKey_map_setfun m k (fun _ => v)
    have h2 := lookupKey_isSome_of_any_true m k h
    obtain ⟨w, hw⟩ := Option.isSome_iff_exists.mp h2
    rw [h1, hw]
    rfl
  case isFalse h =>
    rw [Bool.not_eq_true] at h
    exact lookupKey_append_single_self m k v h

theorem lookupKey_setKey_ne (m : List (String × α)) (k k2 : String) (v : α)
    (h : k ≠ k2) :
    lookupKey (setKey m k v) k2 = lookupKey m k2 := by
  unfold setKey
  split
  · exact lookupKey_map_setfun_ne m k k2 (fun _ => v) h
  · exact lookupKey_append_single_ne m k k2 v h

/-! ### Lemmas about toggling and default expansion -/

theorem toggleSection_lookup_self (e : ExpandMap) (c : String) :
    lookupKey (toggleSection e c) c = some (!(effectiveExpand e c)) := by
  unfold toggleSection effectiveExpand
  exact lookupKey_setKey_self e c _

theorem toggleSection_lookup_ne (e : ExpandMap) (c k : String) (h : c ≠ k) :
    lookupKey (toggleSection e c) k = lookupKey e k := by
  unfold toggleSection
  exact lookupKey_setKey_ne e c k _ h

theorem ensureDefaults_lookup_some (e : ExpandMap) (ks : List String)
    (k : String) (b : Bool) (h : lookupKey e k = some b) :
    lookupKey (ensureDefaults e ks) k = some b := by
  have aux : ∀ (ks2 : List String) (acc : ExpandMap),
      lookupKey acc k = some b →
      lookupKey
        (ks2.foldl
          (fun acc2 k2 =>
            if (lookupKey e k2).isNone then setKey acc2 k2 true else acc2)
          acc) k = some b := by
    intro ks2
    induction ks2 with
    | nil => intro acc hacc; exact hacc
    | cons k2 ks2 ih =>
      intro acc hacc
      simp only [List.foldl_cons]
      apply ih
      by_cases hk2 : (lookupKey e k2).isNone
      · by_cases hkk : k2 = k
        · subst hkk
          rw [h] at hk2
          simp at hk2
        · simp only [hk2, if_true]
          rw [lookupKey_setKey_ne _ _ _ _ hkk]
          exact hacc
      · simp only [hk2, if_false]
        exact hacc
  exact aux ks e h

theorem ensureDefaults_lookup_none (e : ExpandMap) (ks : List String)
    (k : String) (h : lookupKey e k = none) (hk : k ∈ ks) :
    lookupKey (ensureDefaults e ks) k = some true := by
  have aux : ∀ (ks2 : List String) (acc : ExpandMap),
      (k ∈ ks2 ∨ lookupKey acc k = some true) →
      lookupKey
        (ks2.foldl
          (fun acc2 k2 =>
            if (lookupKey e k2).isNone then setKey acc2 k2 true else acc2)
          acc) k = some true := by
    intro ks2
    induction ks2 with
    | nil =>
      intro acc hacc
      rcases hacc with hmem | hval
      · simp at hmem
      · exact hval
    | cons k2 ks2 ih =>
      intro acc hacc
      simp only [List.foldl_cons]
      apply ih
      by_cases hkk : k2 = k
      · subst hkk
        right
        simp only [h, Option.isNone_none, if_true]
        exact lookupKey_setKey_self acc k2 true
      · rcases hacc with hmem | hval
        · rcases List.mem_cons.mp hmem with heq | hmem2
          · exact absurd heq.symm hkk
          · left; exact hmem2
        · right
          by_cases hk2 : (lookupKey e k2).isNone
          · simp only [hk2, if_true]
            rw [lookupKey_setKey_ne _ _ _ _ hkk]
            exact hval
          · simp only [hk2, if_false]
            exact hval
  exact aux ks e (Or.inl hk)

theorem ensureDefaults_lookup_not_mem (e : ExpandMap) (ks : List String)
    (k : String) (hk : k ∉ ks) :
    lookupKey (ensureDefaults e ks) k = lookupKey e k := by
  have aux : ∀ (ks2 : List String) (acc : ExpandMap), k ∉ ks2 →
      lookupKey acc k = lookupKey e k →
      lookupKey
        (ks2.foldl
          (fun acc2 k2 =>
            if (lookupKey e k2).isNone then setKey acc2 k2 true else acc2)
          acc) k = lookupKey e k := by
    intro ks2
    induction ks2 with
    | nil => intro acc _ hacc; exact hacc
    | cons k2 ks2 ih =>
      intro acc hmem hacc
      have hkk : k2 ≠ k := by
        intro hh
        exact hmem (hh ▸ List.mem_cons_self k2 ks2)
      have hmem2 : k ∉ ks2 := fun hh => hmem (List.mem_cons_of_mem k2 hh)
      simp only [List.foldl_cons]
      apply ih _ hmem2
      by_cases hk2 : (lookupKey e k2).isNone
      · simp only [hk2, if_true]
        rw [lookupKey_setKey_ne _ _ _ _ hkk]
        exact hacc
      · simp only [hk2, if_false]
        exact hacc
  exact aux ks e hk rfl

theorem ensureDefaults_idem (e : ExpandMap) (ks : List String) :
    ensureDefaults (ensureDefaults e ks) ks = ensureDefaults e ks := by
  have hall : ∀ k ∈ ks, (lookupKey (ensureDefaults e ks) k).isNone = false := by
    intro k hk
    cases hcase : lookupKey e k with
    | some b => rw [ensureDefaults_lookup_some e ks k b hcase]; rfl
    | none => rw [ensureDefaults_lookup_none e ks k hcase hk]; rfl
  have aux : ∀ (ks2 : List String) (acc : ExpandMap),
      (∀ k ∈ ks2, (lookupKey (ensureDefaults e ks) k).isNone = false) →
      ks2.foldl
        (fun acc2 k2 =>
          if (lookupKey (ensureDefaults e ks) k2).isNone then setKey acc2 k2 true
          else acc2)
        acc = acc := by
    intro ks2
    induction ks2 with
    | nil => intro acc _; rfl
    | cons k2 ks2 ih =>
      intro acc hh
      simp only [List.foldl_cons]
      simp only [hh k2 (List.mem_cons_self k2 ks2), Bool.false_eq_true, if_false]
      exact ih acc fun k hk => hh k (List.mem_cons_of_mem k2 hk)
  exact aux ks (ensureDefaults e ks) hall

/-! ### Lemmas about the app state machine -/

theorem applyOp_hist (s : AppState) (op : EngineOp) :
    (applyOp s op).historicalActivities = s.historicalActivities := by
  cases op with
  | tick t => rfl
  | submit text effort model =>
    simp only [applyOp, handleSubmit]
    split <;> rfl

theorem applyOps_hist (ops : List EngineOp) (s : AppState) :
    (applyOps s ops).historicalActivities = s.historicalActivities := by
  induction ops generalizing s with
  | nil => rfl
  | cons op ops ih =>
    show (applyOps (applyOp s op) ops).historicalActivities = _
    rw [ih (applyOp s op), applyOp_hist]

theorem lastIsAiWithId_length_pos (messages : List Msg) (m : String)
    (h : lastIsAiWithId messages = some m) : messages.length > 0 := by
  cases messages with
  | nil => simp [lastIsAiWithId] at h
  | cons a rest => simp


/-! ### Grouped view lemmas -/

/-- The order in which each section type is first encountered in the
timeline, as the specification words it. -/
def firstSeenKeys (l : List ProcessedEvent) : List String :=
  l.foldl (fun ks x => if x.sectionType ∈ ks then ks else ks ++ [x.sectionType]) []

/-- Index of the first entry of the timeline with the given section type. -/
def firstIdx (l : List ProcessedEvent) (k : String) : Nat :=
  l.findIdx fun x => x.sectionType == k

theorem groupedEvents_append (l : List ProcessedEvent) (e : ProcessedEvent) :
    groupedEvents (l ++ [e]) = addEvent (groupedEvents l) e := by
  simp [groupedEvents, List.foldl_append]

theorem firstSeenKeys_append (l : List ProcessedEvent) (e : ProcessedEvent) :
    firstSeenKeys (l ++ [e]) =
      if e.sectionType ∈ firstSeenKeys l then firstSeenKeys l
      else firstSeenKeys l ++ [e.sectionType] := by
  simp [firstSeenKeys, List.foldl_append]

theorem any_key_iff_mem (g : List (String × α)) (k : String) :
    (g.any fun p => p.1 == k) = true ↔ k ∈ g.map Prod.fst := by
  simp [List.any_eq_true, List.mem_map]

theorem addEvent_keys (g : GroupedMap) (e : ProcessedEvent) :
    (addEvent g e).map Prod.fst =
      if e.sectionType ∈ g.map Prod.fst then g.map Prod.fst
      else g.map Prod.fst ++ [e.sectionType] := by
  unfold addEvent
  by_cases h : e.sectionType ∈ g.map Prod.fst
  · rw [if_pos ((any_key_iff_mem g e.sectionType).mpr h), if_pos h]
    rw [List.map_map]
    apply List.map_congr_left
    intro p _
    by_cases hp : p.1 = e.sectionType
    · simp [Function.comp, hp]
    · simp [Function.comp, hp]
  · have hfalse : (g.any fun p => p.1 == e.sectionType) = false := by
      rw [← Bool.not_eq_true]
      intro hh
      exact h ((any_key_iff_mem g e.sectionType).mp hh)
    rw [hfalse, if_neg h]
    simp

theorem groupOf_addEvent_self (g : GroupedMap) (e : ProcessedEvent) :
    groupOf (addEvent g e) e.sectionType = groupOf g e.sectionType ++ [e] := by
  unfold addEvent groupOf
  by_cases h : (g.any fun p => p.1 == e.sectionType) = true
  · rw [if_pos h]
    rw [lookupKey_map_setfun g e.sectionType (fun v => v ++ [e])]
    obtain ⟨w, hw⟩ := Option.isSome_iff_exists.mp
      (lookupKey_isSome_of_any_true g e.sectionType h)
    rw [hw]
    rfl
  · rw [if_neg h]
    rw [Bool.not_eq_true] at h
    rw [lookupKey_append_single_self g e.sectionType [e] h]
    rw [lookupKey_eq_none_of_any_false g e.sectionType h]
    rfl

theorem groupOf_addEvent_ne (g : GroupedMap) (e : ProcessedEvent) (k : String)
    (h : k ≠ e.sectionType) :
    groupOf (addEvent g e) k = groupOf g k := by
  unfold addEvent
  by_cases hc : (g.any fun p => p.1 == e.sectionType) = true
  · rw [if_pos hc]
    unfold groupOf
    rw [lookupKey_map_setfun_ne g e.sectionType k (fun v => v ++ [e]) (Ne.symm h)]
  · rw [if_neg hc]
    unfold groupOf
    rw [lookupKey_append_single_ne g e.sectionType k [e] (Ne.symm h)]

theorem groupOf_groupedEvents (l : List ProcessedEvent) (k : String) :
    groupOf (groupedEvents l) k = l.filter fun x => x.sectionType == k := by
  induction l using List.reverseRecOn with
  | nil => rfl
  | append_singleton l e ih =>
    rw [groupedEvents_append, List.filter_append]
    by_cases h : k = e.sectionType
    · subst h
      rw [groupOf_addEvent_self, ih]
      simp
    · rw [groupOf_addEvent_ne _ _ _ h, ih]
      have : (e.sectionType == k) = false := by
        simp [Ne.symm h]
      simp [this]

theorem groupedEvents_keys (l : List ProcessedEvent) :
    (groupedEvents l).map Prod.fst = firstSeenKeys l := by
  induction l using List.reverseRecOn with
  | nil => rfl
  | append_singleton l e ih =>
    rw [groupedEvents_append, addEvent_keys, ih, firstSeenKeys_append]

theorem firstSeenKeys_nodup (l : List ProcessedEvent) :
    (firstSeenKeys l).Nodup := by
  induction l using List.reverseRecOn with
  | nil => exact List.nodup_nil
  | append_singleton l e ih =>
    rw [firstSeenKeys_append]
    split
    · exact ih
    case isFalse h =>
      refine List.Nodup.append ih (List.nodup_singleton _) ?_
      intro a ha hb
      rw [List.mem_singleton] at hb
      subst hb
      exact h ha

theorem firstSeenKeys_mem (l : List ProcessedEvent) (k : String) :
    k ∈ firstSeenKeys l ↔ ∃ x ∈ l, x.sectionType = k := by
  induction l using List.reverseRecOn with
  | nil => simp [firstSeenKeys]
  | append_singleton l e ih =>
    rw [firstSeenKeys_append]
    by_cases h : e.sectionType ∈ firstSeenKeys l
    · rw [if_pos h, ih]
      constructor
      · rintro ⟨x, hx, hxk⟩
        exact ⟨x, List.mem_append_left _ hx, hxk⟩
      · rintro ⟨x, hx, hxk⟩
        rcases List.mem_append.mp hx with hx2 | hx2
        · exact ⟨x, hx2, hxk⟩
        · rw [List.mem_singleton] at hx2
          subst hx2
          exact ih.mp (hxk ▸ h)
    · rw [if_neg h]
      constructor
      · intro hk
        rcases List.mem_append.mp hk with hk2 | hk2
        · obtain ⟨x, hx, hxk⟩ := ih.mp hk2
          exact ⟨x, List.mem_append_left _ hx, hxk⟩
        · rw [List.mem_singleton] at hk2
          exact ⟨e, List.mem_append_right _ (List.mem_singleton_self e), hk2.symm⟩
      · rintro ⟨x, hx, hxk⟩
        rcases List.mem_append.mp hx with hx2 | hx2
        · exact List.mem_append_left _ (ih.mpr ⟨x, hx2, hxk⟩)
        · rw [List.mem_singleton] at hx2
          subst hx2
          exact List.mem_append_right _ (by rw [List.mem_singleton, hxk])

theorem firstIdx_append_of_mem (l : List ProcessedEvent) (e : ProcessedEvent)
    (k : String) (h : k ∈ firstSeenKeys l) :
    firstIdx (l ++ [e]) k = firstIdx l k := by
  obtain ⟨x, hx, hxk⟩ := (firstSeenKeys_mem l k).mp h
  have hex : ∃ x ∈ l, (x.sectionType == k) = true := ⟨x, hx, by simp [hxk]⟩
  have hlt := List.findIdx_lt_length_of_exists hex
  unfold firstIdx
  rw [List.findIdx_append, if_pos hlt]

theorem firstIdx_lt_length_of_mem (l : List ProcessedEvent) (k : String)
    (h : k ∈ firstSeenKeys l) :
    firstIdx l k < l.length := by
  obtain ⟨x, hx, hxk⟩ := (firstSeenKeys_mem l k).mp h
  exact List.findIdx_lt_length_of_exists ⟨x, hx, by simp [hxk]⟩

theorem firstIdx_append_self_of_not_mem (l : List ProcessedEvent)
    (e : ProcessedEvent) (h : e.sectionType ∉ firstSeenKeys l) :
    firstIdx (l ++ [e]) e.sectionType = l.length := by
  have hall : ∀ x ∈ l, (x.sectionType == e.sectionType) = false := by
    intro x hx
    by_cases hxk : x.sectionType = e.sectionType
    · exact absurd ((firstSeenKeys_mem l e.sectionType).mpr ⟨x, hx, hxk⟩) h
    · simp [hxk]
  have hlen : List.findIdx (fun x => x.sectionType == e.sectionType) l = l.length :=
    List.findIdx_eq_length_of_false hall
  unfold firstIdx
  rw [List.findIdx_append, hlen]
  simp [List.findIdx_cons]

theorem groupedEvents_pairwise (l : List ProcessedEvent) :
    List.Pairwise (fun a b => firstIdx l a < firstIdx l b) (firstSeenKeys l) := by
  induction l using List.reverseRecOn with
  | nil => exact List.Pairwise.nil
  | append_singleton l e ih =>
    rw [firstSeenKeys_append]
    by_cases h : e.sectionType ∈ firstSeenKeys l
    · rw [if_pos h]
      refine ih.imp_of_mem ?_
      intro a b ha hb hab
      rw [firstIdx_append_of_mem l e a ha, firstIdx_append_of_mem l e b hb]
      exact hab
    · rw [if_neg h]
      rw [List.pairwise_append]
      refine ⟨ih.imp_of_mem ?_, List.pairwise_singleton _ _, ?_⟩
      · intro a b ha hb hab
        rw [firstIdx_append_of_mem l e a ha, firstIdx_append_of_mem l e b hb]
        exact hab
      · intro a ha b hb
        rw [List.mem_singleton] at hb
        subst hb
        rw [firstIdx_append_of_mem l e a ha, firstIdx_append_self_of_not_mem l e h]
        exact firstIdx_lt_length_of_mem l a ha


/-! ### Classifier lemmas -/

/-- The node names with a dedicated branch in `onUpdateEvent`. -/
def knownNodeNames : List String :=
  ["generate_query", "web_research", "reflection", "code_execution", "finalize_answer"]

theorem classifyTick_eq_filterMap (tick : Tick) :
    classifyTick tick = tick.filterMap fun np => classifyNode np.1 np.2 := by
  have aux : ∀ (t : Tick) (acc : List ProcessedEvent),
      t.foldl
        (fun acc np =>
          match classifyNode np.1 np.2 with
          | some e => acc ++ [e]
          | none => acc)
        acc
      = acc ++ t.filterMap fun np => classifyNode np.1 np.2 := by
    intro t
    induction t with
    | nil => intro acc; simp
    | cons np t ih =>
      intro acc
      simp only [List.foldl_cons, List.filterMap_cons]
      cases hc : classifyNode np.1 np.2 with
      | some e =>
        simp only [hc]
        rw [ih]
        simp
      | none =>
        simp only [hc]
        rw [ih]
  simpa using aux tick []

theorem classifyNode_isSome (n : String) (p : NodePayload) :
    (classifyNode n p).isSome = hasTruthyType p := by
  obtain ⟨ty, d⟩ := p
  cases ty with
  | none => rfl
  | some t =>
    by_cases ht : t = ""
    · simp [classifyNode, hasTruthyType, ht]
    · simp only [classifyNode, hasTruthyType]
      rw [if_neg ht]
      simp only [ne_eq, ht, not_false_iff, decide_True]
      repeat' split
      all_goals rfl

theorem classifyTick_length (tick : Tick) :
    (classifyTick tick).length
      = (tick.filter fun np => hasTruthyType np.2).length := by
  rw [classifyTick_eq_filterMap]
  induction tick with
  | nil => rfl
  | cons np t ih =>
    rw [List.filterMap_cons, List.filter_cons]
    cases hc : classifyNode np.1 np.2 with
    | some e =>
      have hs : hasTruthyType np.2 = true := by
        rw [← classifyNode_isSome np.1 np.2, hc]
        rfl
      simp [hs, ih]
    | none =>
      have hs : hasTruthyType np.2 = false := by
        rw [← classifyNode_isSome np.1 np.2, hc]
        rfl
      simp [hs, ih]

/-! ### Claim theorems -/

/-- Claim C1 (amended): a node payload carrying a non-empty `type` field
produces exactly one classified entry following the classification table
(`generate_query` to Querying, `web_research`/sources to Searching with
`isSources`, `reflection`/plan to Planning, `code_execution`/output to
Coding, `finalize_answer` to Finalizing raising the run-completion
signal, any unrecognized node to General with a humanized title); a
payload lacking `type`, or carrying an empty `type`, produces no entry. -/
theorem classifier_table :
    (∀ n d, classifyNode n ⟨none, d⟩ = none)
    ∧ (∀ n d, classifyNode n ⟨some "", d⟩ = none)
    ∧ (∀ t d, t ≠ "" → classifyNode "generate_query" ⟨some t, d⟩
        = some ⟨"Generating Search Queries", d, "Querying", false⟩)
    ∧ (∀ d, classifyNode "web_research" ⟨some "sources", d⟩
        = some ⟨"Found Sources", d, "Searching", true⟩)
    ∧ (∀ d, classifyNode "reflection" ⟨some "plan", d⟩
        = some ⟨"Reflection Plan", d, "Planning", false⟩)
    ∧ (∀ d, classifyNode "code_execution" ⟨some "output", d⟩
        = some ⟨"Code Execution Output", d, "Coding", false⟩)
    ∧ (∀ t d, t ≠ "" → classifyNode "finalize_answer" ⟨some t, d⟩
        = some ⟨"Finalizing Answer", d, "Finalizing", false⟩
        ∧ raisesFinalize "finalize_answer" ⟨some t, d⟩ = true)
    ∧ (∀ n t d, t ≠ "" → n ∉ knownNodeNames → classifyNode n ⟨some t, d⟩
        = some ⟨humanize n, d, "General", false⟩)
    ∧ (∀ tick, classifyTick tick
        = tick.filterMap fun np => classifyNode np.1 np.2)
    ∧ (∀ tick, (classifyTick tick).length
        = (tick.filter fun np => hasTruthyType np.2).length) := by
  refine ⟨fun n d => rfl, fun n d => rfl, ?_, fun d => rfl, fun d => rfl,
    fun d => rfl, ?_, ?_, classifyTick_eq_filterMap, classifyTick_length⟩
  · intro t d ht
    simp [classifyNode, ht]
  · intro t d ht
    constructor
    · simp [classifyNode, ht]
    · simp [raisesFinalize, hasTruthyType, ht]
  · intro n t d ht hn
    simp only [knownNodeNames, List.mem_cons, List.mem_singleton, not_or] at hn
    obtain ⟨h1, h2, h3, h4, h5⟩ := hn
    simp [classifyNode, ht, h1, h2, h3, h4, h5]

/-- Claim C1 counterexample: a payload that carries a `type` field whose
value is the empty string produces no entry, so "an object carrying a
`type` field yields exactly one entry" fails as stated. -/
theorem classifier_table_cex :
    classifyTick [("custom_node", ⟨some "", JsonVal.null⟩)] = []
    ∧ (classifyTick [("custom_node", ⟨some "", JsonVal.null⟩)]).length ≠ 1 := by
  exact ⟨rfl, by decide⟩

/-- Claim C1 witness: the amended table evaluated at concrete inputs. -/
theorem classifier_table_witness :
    classifyNode "generate_query" ⟨some "status", JsonVal.null⟩
      = some ⟨"Generating Search Queries", JsonVal.null, "Querying", false⟩ :=
  classifier_table.2.2.1 "status" JsonVal.null (by decide)

/-- Claim C10: a submission whose input trims to the empty string is a
complete no-op: the state is unchanged and no run is dispatched. -/
theorem handleSubmit_blank_noop (s : AppState)
    (submittedInputValue effort model : String)
    (h : jsTrim submittedInputValue = "") :
    handleSubmit s submittedInputValue effort model = (s, false) := by
  simp [handleSubmit, h]

/-- Claim C10 witness: a whitespace-only submission leaves a concrete
state untouched. -/
theorem handleSubmit_blank_noop_witness :
    handleSubmit ⟨[], [], false⟩ "   " "low" "m" = (⟨[], [], false⟩, false) :=
  handleSubmit_blank_noop ⟨[], [], false⟩ "   " "low" "m" (by decide)

/-- Claim C5 counterexample: toggling a section type absent from
`ExpandState` stores `true` (JavaScript `!undefined`), not `false` as the
claim states. -/
theorem toggle_absent_cex :
    lookupKey (toggleSection ([] : ExpandMap) "Coding") "Coding" = some true
    ∧ lookupKey (toggleSection ([] : ExpandMap) "Coding") "Coding"
        ≠ some false := by
  exact ⟨rfl, by decide⟩

/-- Claim C5 (amended): for a section type with no key in `ExpandState`,
`toggleSection` treats the current value as false and flips it, so after
the call the stored value is `true`. -/
theorem toggle_absent_default (e : ExpandMap) (c : String)
    (h : lookupKey e c = none) :
    lookupKey (toggleSection e c) c = some true := by
  rw [toggleSection_lookup_self]
  simp [effectiveExpand, h, jsBool]

/-- Claim C5 witness: toggling a fresh section type on an empty map. -/
theorem toggle_absent_default_witness :
    lookupKey (toggleSection ([] : ExpandMap) "Searching") "Searching"
      = some true :=
  toggle_absent_default [] "Searching" rfl

/-- Claim C7: toggling the same category twice restores the prior expand
value: the rendered expanded/collapsed state of every category is exactly
as before, and a key that was present regains its exact stored value. -/
theorem toggle_roundtrip (e : ExpandMap) (c : String) :
    (∀ k, effectiveExpand (toggleSection (toggleSection e c) c) k
        = effectiveExpand e k)
    ∧ ∀ b, lookupKey e c = some b →
        lookupKey (toggleSection (toggleSection e c) c) c = some b := by
  constructor
  · intro k
    by_cases hck : c = k
    · subst hck
      unfold effectiveExpand
      rw [toggleSection_lookup_self]
      have h1 : effectiveExpand (toggleSection e c) c = !(effectiveExpand e c) := by
        unfold effectiveExpand
        rw [toggleSection_lookup_self]
        rfl
      rw [h1, Bool.not_not]
      rfl
    · unfold effectiveExpand
      rw [toggleSection_lookup_ne _ _ _ hck, toggleSection_lookup_ne _ _ _ hck]
  · intro b hb
    rw [toggleSection_lookup_self]
    have h1 : effectiveExpand (toggleSection e c) c = !(effectiveExpand e c) := by
      unfold effectiveExpand
      rw [toggleSection_lookup_self]
      rfl
    rw [h1, Bool.not_not]
    unfold effectiveExpand
    rw [hb]
    rfl

/-- Claim C7 witness: the round trip on a concrete collapsed category. -/
theorem toggle_roundtrip_witness :
    lookupKey
      (toggleSection (toggleSection [("Planning", false)] "Planning") "Planning")
      "Planning" = some false :=
  (toggle_roundtrip [("Planning", false)] "Planning").2 false rfl


/-- Claim C2: the grouped view is a proper partition of the live
timeline: the bucket of every category is exactly the subsequence of the
timeline with that section type (so each entry lands in exactly the one
category equal to its own section type), the category keys are exactly
the section types present, without duplicates, ordered by first
occurrence in the timeline. -/
theorem groupedView_partition (l : List ProcessedEvent) :
    (∀ k, groupOf (groupedEvents l) k = l.filter fun x => x.sectionType == k)
    ∧ (groupedEvents l).map Prod.fst = firstSeenKeys l
    ∧ ((groupedEvents l).map Prod.fst).Nodup
    ∧ (∀ k, k ∈ (groupedEvents l).map Prod.fst ↔ ∃ x ∈ l, x.sectionType = k)
    ∧ List.Pairwise (fun a b => firstIdx l a < firstIdx l b)
        ((groupedEvents l).map Prod.fst) := by
  refine ⟨groupOf_groupedEvents l, groupedEvents_keys l, ?_, ?_, ?_⟩
  · rw [groupedEvents_keys]
    exact firstSeenKeys_nodup l
  · intro k
    rw [groupedEvents_keys]
    exact firstSeenKeys_mem l k
  · rw [groupedEvents_keys]
    exact groupedEvents_pairwise l

/-- Claim C3: once the archival effect has filed the live timeline under
message id `m`, the archived copy equals the timeline at that instant,
and any later sequence of stream ticks and submissions (including the
timeline-clearing reset of a new submission) leaves it unchanged. -/
theorem archive_frozen (s : AppState) (messages : List Msg) (m : String)
    (ops : List EngineOp)
    (hflag : s.hasFinalizeEventOccurred = true)
    (hlast : lastIsAiWithId messages = some m) :
    lookupKey (archiveEffect s messages false).historicalActivities m
      = some s.processedEventsTimeline
    ∧ lookupKey
        (applyOps (archiveEffect s messages false) ops).historicalActivities m
      = some s.processedEventsTimeline := by
  have hlen := lastIsAiWithId_length_pos messages m hlast
  have harch : (archiveEffect s messages false).historicalActivities
      = setKey s.historicalActivities m s.processedEventsTimeline := by
    unfold archiveEffect
    rw [hflag, hlast]
    simp [hlen]
  refine ⟨?_, ?_⟩
  · rw [harch]
    exact lookupKey_setKey_self _ _ _
  · rw [applyOps_hist, harch]
    exact lookupKey_setKey_self _ _ _

/-- Claim C3 witness: a concrete archive under id 42 survives a later
tick and a later submission. -/
theorem archive_frozen_witness :
    lookupKey
      (applyOps
        (archiveEffect
          ⟨[⟨"Finalizing Answer", JsonVal.null, "Finalizing", false⟩], [], true⟩
          [⟨"ai", some "42", "answer"⟩] false)
        [EngineOp.tick [("generate_query", ⟨some "status", JsonVal.str "q"⟩)],
          EngineOp.submit "next question" "low" "model"]).historicalActivities
      "42"
      = some [⟨"Finalizing Answer", JsonVal.null, "Finalizing", false⟩] :=
  (archive_frozen
    ⟨[⟨"Finalizing Answer", JsonVal.null, "Finalizing", false⟩], [], true⟩
    [⟨"ai", some "42", "answer"⟩] "42"
    [EngineOp.tick [("generate_query", ⟨some "status", JsonVal.str "q"⟩)],
      EngineOp.submit "next question" "low" "model"] rfl rfl).2

/-- Claim C4 counterexample: with the finalize signal latched, the run
stopped, and a non-assistant message at the tail, the effect clears the
latched signal (it does not stay pending as the claim states), and writes
no archive. -/
theorem archive_race_cex :
    (archiveEffect ⟨[], [], true⟩ [⟨"human", some "1", "hi"⟩]
        false).hasFinalizeEventOccurred = false
    ∧ (archiveEffect ⟨[], [], true⟩ [⟨"human", some "1", "hi"⟩]
        false).hasFinalizeEventOccurred ≠ true
    ∧ (archiveEffect ⟨[], [], true⟩ [⟨"human", some "1", "hi"⟩]
        false).historicalActivities = [] :=
  ⟨rfl, by decide, rfl⟩

/-- Claim C4 (amended): if the finalize signal is latched and the run
stops while the last message is not an assistant message with a known
id, then as soon as the message list is non-empty the effect consumes
the latched signal without writing any archive entry; the state stays
pending only while the run is active or the message list is empty, and a
new non-blank submission abandons it by clearing the flag and the
timeline. -/
theorem archive_race_consumed (s : AppState) (messages : List Msg)
    (hflag : s.hasFinalizeEventOccurred = true) :
    (messages.length > 0 → lastIsAiWithId messages = none →
      archiveEffect s messages false
        = { s with hasFinalizeEventOccurred := false })
    ∧ (messages = [] → archiveEffect s messages false = s)
    ∧ archiveEffect s messages true = s
    ∧ (∀ text effort model, jsTrim text ≠ "" →
        (handleSubmit s text effort model).1.hasFinalizeEventOccurred = false
        ∧ (handleSubmit s text effort model).1.processedEventsTimeline = []) := by
  refine ⟨?_, ?_, ?_, ?_⟩
  · intro hlen hlast
    unfold archiveEffect
    rw [hflag, hlast]
    simp [hlen]
  · intro hnil
    subst hnil
    simp [archiveEffect]
  · simp [archiveEffect]
  · intro text effort model htext
    constructor <;> simp [handleSubmit, htext]

/-- Claim C4 witness: the amended behavior on a concrete stopped run with
a trailing human message. -/
theorem archive_race_consumed_witness :
    archiveEffect ⟨[], [], true⟩ [⟨"human", some "1", "hi"⟩] false
      = ⟨[], [], false⟩ :=
  (archive_race_consumed ⟨[], [], true⟩ [⟨"human", some "1", "hi"⟩] rfl).1
    (by decide) rfl

/-- Claim C6: reading the grouped view initializes each category absent
from `ExpandState` to expanded exactly once: a fresh key present in the
grouped view is stored as `true`, existing keys keep their value, keys
outside the grouped view are untouched, and running the read-path
initialization again changes nothing. -/
theorem default_expand_rule (l : List ProcessedEvent) (e : ExpandMap) :
    (∀ k, k ∈ (groupedEvents l).map Prod.fst → lookupKey e k = none →
      lookupKey (ensureDefaults e ((groupedEvents l).map Prod.fst)) k
        = some true)
    ∧ (∀ k b, lookupKey e k = some b →
      lookupKey (ensureDefaults e ((groupedEvents l).map Prod.fst)) k = some b)
    ∧ (∀ k, k ∉ (groupedEvents l).map Prod.fst →
      lookupKey (ensureDefaults e ((groupedEvents l).map Prod.fst)) k
        = lookupKey e k)
    ∧ ensureDefaults (ensureDefaults e ((groupedEvents l).map Prod.fst))
        ((groupedEvents l).map Prod.fst)
      = ensureDefaults e ((groupedEvents l).map Prod.fst) :=
  ⟨fun k hk h => ensureDefaults_lookup_none e _ k h hk,
    fun k b h => ensureDefaults_lookup_some e _ k b h,
    fun k hk => ensureDefaults_lookup_not_mem e _ k hk,
    ensureDefaults_idem e _⟩

/-- Claim C6 witness: a concrete fresh category is initialized to
expanded. -/
theorem default_expand_rule_witness :
    lookupKey
      (ensureDefaults []
        ((groupedEvents
          [⟨"Generating Search Queries", JsonVal.null, "Querying",
            false⟩]).map Prod.fst))
      "Querying" = some true :=
  (default_expand_rule
    [⟨"Generating Search Queries", JsonVal.null, "Querying", false⟩] []).1
    "Querying" (by decide) rfl


theorem jsToString_str (s : String) : jsToString (JsonVal.str s) = s := rfl

/-- Claim C8 counterexample: for data `{stdout: 5, stderr: "oops"}` the
renderer emits a stdout block for a field that is not text (`5`), so
"omitting any field that is absent or not text" fails as stated. -/
theorem render_policy_cex :
    renderData
      ⟨"t", JsonVal.obj [("stdout", JsonVal.num 5), ("stderr", JsonVal.str "oops")],
        "Coding", false⟩
      = [RenderPiece.stdoutBlock "5", RenderPiece.stderrBlock "oops"]
    ∧ isStringField
        (JsonVal.obj [("stdout", JsonVal.num 5), ("stderr", JsonVal.str "oops")])
        "stdout" = false :=
  ⟨rfl, rfl⟩

/-- Claim C8 (amended): the renderer picks exactly one interpretation by
fixed precedence: (1) `isSources` with an array renders one link per
element with a truthy (non-empty) `url`, labeled by a truthy `title` if
one exists, else by the `url`, skipping the rest silently; (2) else a
string is rendered as pre-formatted text; (3) else a truthy object with
any of `stdout`/`stderr`/`error` as a string field renders blocks in that
fixed order, one for each truthy field (for string fields: non-empty),
omitting absent, empty-string and otherwise falsy fields — in particular
`{stdout:"ok", stderr:""}` emits only the stdout block; (4) otherwise the
payload is rendered as a structured dump. -/
theorem render_policy :
    (∀ t sec xs, renderData ⟨t, JsonVal.arr xs, sec, true⟩
        = xs.filterMap renderSource)
    ∧ (∀ v u, jsField v "url" = some (JsonVal.str u) → u ≠ "" →
        jsField v "title" = none → renderSource v = some (.link u u))
    ∧ (∀ v u ttl, jsField v "url" = some (JsonVal.str u) → u ≠ "" →
        jsField v "title" = some (JsonVal.str ttl) → ttl ≠ "" →
        renderSource v = some (.link u ttl))
    ∧ (∀ v u, jsField v "url" = some (JsonVal.str u) → u ≠ "" →
        jsField v "title" = some (JsonVal.str "") →
        renderSource v = some (.link u u))
    ∧ (∀ v, jsField v "url" = none → renderSource v = none)
    ∧ (∀ v, jsField v "url" = some (JsonVal.str "") → renderSource v = none)
    ∧ (∀ t sec s b, renderData ⟨t, JsonVal.str s, sec, b⟩ = [.text s])
    ∧ (∀ t sec fs b,
        (isStringField (JsonVal.obj fs) "stdout"
          || isStringField (JsonVal.obj fs) "stderr"
          || isStringField (JsonVal.obj fs) "error") = true →
        renderData ⟨t, JsonVal.obj fs, sec, b⟩
          = blockIfTruthy .stdoutBlock (jsField (JsonVal.obj fs) "stdout")
            ++ blockIfTruthy .stderrBlock (jsField (JsonVal.obj fs) "stderr")
            ++ blockIfTruthy .errorBlock (jsField (JsonVal.obj fs) "error"))
    ∧ (∀ mk s, s ≠ "" → blockIfTruthy mk (some (JsonVal.str s)) = [mk s])
    ∧ (∀ mk, blockIfTruthy mk (some (JsonVal.str "")) = [])
    ∧ (∀ mk : String → RenderPiece, blockIfTruthy mk none = [])
    ∧ (∀ t sec fs b,
        (isStringField (JsonVal.obj fs) "stdout"
          || isStringField (JsonVal.obj fs) "stderr"
          || isStringField (JsonVal.obj fs) "error") = false →
        renderData ⟨t, JsonVal.obj fs, sec, b⟩ = [.dump (JsonVal.obj fs)])
    ∧ (∀ t sec b, renderData ⟨t, JsonVal.null, sec, b⟩ = [.dump JsonVal.null])
    ∧ renderData
        ⟨"Code Execution Output",
          JsonVal.obj [("stdout", JsonVal.str "ok"), ("stderr", JsonVal.str "")],
          "Coding", false⟩
        = [.stdoutBlock "ok"] := by
  refine ⟨?_, ?_, ?_, ?_, ?_, ?_, ?_, ?_, ?_, ?_, ?_, ?_, ?_, rfl⟩
  · intro t sec xs
    simp [renderData, isJsArr, jsElems]
  · intro v u hu hu2 ht
    simp [renderSource, hu, ht, jsTruthy, hu2, jsToString_str]
  · intro v u ttl hu hu2 ht ht2
    simp [renderSource, hu, ht, jsTruthy, hu2, ht2, jsToString_str]
  · intro v u hu hu2 ht
    simp [renderSource, hu, ht, jsTruthy, hu2, jsToString_str]
  · intro v hu
    simp [renderSource, hu]
  · intro v hu
    simp [renderSource, hu, jsTruthy]
  · intro t sec s b
    simp [renderData, isJsArr]
  · intro t sec fs b h
    simp [renderData, isJsArr, jsTruthy, h]
  · intro mk s hs
    simp [blockIfTruthy, jsTruthy, hs, jsToString_str]
  · intro mk
    simp [blockIfTruthy, jsTruthy]
  · intro mk
    simp [blockIfTruthy]
  · intro t sec fs b h
    simp [renderData, isJsArr, jsTruthy, h]
  · intro t sec b
    simp [renderData, isJsArr, jsTruthy]

/-- Claim C8 witness: the sources branch on a concrete element with a
non-empty url and a present title. -/
theorem render_policy_witness :
    renderSource (JsonVal.obj [("url", JsonVal.str "https://x"),
        ("title", JsonVal.str "X")])
      = some (RenderPiece.link "https://x" "X") :=
  render_policy.2.2.1
    (JsonVal.obj [("url", JsonVal.str "https://x"), ("title", JsonVal.str "X")])
    "https://x" "X" rfl (by decide) rfl (by decide)

/-- Claim C9: once the mind-map fetch settles, a 2xx response whose JSON
body holds a non-empty `mermaid_string` ends in the success state with
that string; a non-2xx response ends in the error state, incorporating
the body's `detail` when the body is JSON carrying a non-empty one and
the raw body text when the body is not JSON; a 2xx JSON body missing
`mermaid_string` ends in the error state; the loading flag always ends
false; and settling the fetch never touches the engine state. -/
theorem mindmap_fetch :
    (∀ (res : FetchResponse) j m, 200 ≤ res.status → res.status ≤ 299 →
      res.bodyJson = some j → jsField j "mermaid_string" = some (JsonVal.str m) →
      m ≠ "" → resolveFetch res = ⟨false, none, m⟩)
    ∧ (∀ (res : FetchResponse) j d, ¬(200 ≤ res.status ∧ res.status ≤ 299) →
      res.bodyJson = some j → jsField j "detail" = some (JsonVal.str d) →
      d ≠ "" →
      resolveFetch res
        = ⟨false,
            some ("Server error (status " ++ toString res.status ++ "): " ++ d),
            ""⟩)
    ∧ (∀ res : FetchResponse, ¬(200 ≤ res.status ∧ res.status ≤ 299) →
      res.bodyJson = none →
      resolveFetch res
        = ⟨false,
            some ("Server error (status " ++ toString res.status ++ "): "
              ++ res.bodyText),
            ""⟩)
    ∧ (∀ (res : FetchResponse) j, 200 ≤ res.status → res.status ≤ 299 →
      res.bodyJson = some j → jsField j "mermaid_string" = none →
      resolveFetch res
        = ⟨false, some "Received no mermaid_string or empty data in response.",
            ""⟩)
    ∧ (∀ res, (resolveFetch res).isLoading = false)
    ∧ (∀ s res, (resolveFetchClient s res).app = s.app) := by
  refine ⟨?_, ?_, ?_, ?_, ?_, fun s res => rfl⟩
  · intro res j m h1 h2 hj hm hm2
    unfold resolveFetch
    rw [if_pos ⟨h1, h2⟩, hj]
    simp [hm, jsTruthy, hm2, jsToString]
  · intro res j d h hj hd hd2
    unfold resolveFetch
    rw [if_neg h, hj]
    simp [hd, jsTruthy, hd2, jsToString]
  · intro res h hj
    unfold resolveFetch
    rw [if_neg h, hj]
  · intro res j h1 h2 hj hm
    unfold resolveFetch
    rw [if_pos ⟨h1, h2⟩, hj]
    simp [hm]
  · intro res
    unfold resolveFetch
    repeat' split
    all_goals rfl

/-- Claim C9 witness: a concrete successful fetch. -/
theorem mindmap_fetch_witness :
    resolveFetch
      ⟨200, "", some (JsonVal.obj [("mermaid_string", JsonVal.str "graph TD")])⟩
      = ⟨false, none, "graph TD"⟩ :=
  mindmap_fetch.1
    ⟨200, "", some (JsonVal.obj [("mermaid_string", JsonVal.str "graph TD")])⟩
    (JsonVal.obj [("mermaid_string", JsonVal.str "graph TD")]) "graph TD"
    (by decide) (by decide) rfl rfl (by decide)

end Spec2Proof
